import Mathlib

/-!
Verification development for the cerebella repository: a CLI that launches a
file-watching server with a polling web dashboard.  The JavaScript sources
(`src/cli.js`, `src/auto-update.js`, `src/update-func.js`,
`src/dashboard/dashboard.js` and the unnamed launcher files) are shallowly
embedded below; the watcher core itself (the Python server the CLI spawns) is
not among the repository's files, so its data model is modelled from the
specification where noted.
-/

namespace Cerebella

/-! ## JavaScript string and number primitives

The CLI code relies on a handful of JavaScript host-language behaviors:
string truthiness, `String.prototype.split`, `Number(...)` coercion, and
NaN-propagating comparisons.  They are embedded here as executable
functions over `String` / `List Char`. -/

/-- Truthiness of a nullable JavaScript string: `null`/`undefined` (here
`none`) and the empty string are falsy, every other string is truthy. -/
def jsFalsyStr : Option String → Bool
  | none => true
  | some s => s == ""

/-- JavaScript `s.split('.')` at the character-list level: splits on every
occurrence of the dot, keeping empty segments, and maps the empty input to
the single empty segment (as `''.split('.')` yields `['']`). -/
def splitDot : List Char → List (List Char)
  | [] => [[]]
  | '.' :: rest => [] :: splitDot rest
  | c :: rest =>
    match splitDot rest with
    | seg :: segs => (c :: seg) :: segs
    | [] => [[c]]

/-- Parse a nonempty all-digit character list as a natural number;
`none` otherwise. -/
def digitsToNat : List Char → Option Nat :=
  fun cs =>
    match cs with
    | [] => none
    | _ => go cs 0
where
  go : List Char → Nat → Option Nat
    | [], acc => some acc
    | c :: rest, acc =>
      if c.isDigit then go rest (acc * 10 + (c.toNat - 48)) else none

/-- A JavaScript number as far as the version-comparison code exercises it:
either NaN or an integer value. -/
inductive JSNum where
  | nan
  | num (v : Int)
deriving DecidableEq

/-- JavaScript `Number(s)` on the fragment the version parts exercise: the
empty string coerces to `0`, an optionally `-`-signed digit string to the
corresponding integer, and anything else to NaN. -/
def jsToNumber (cs : List Char) : JSNum :=
  match cs with
  | [] => .num 0
  | '-' :: rest =>
    match digitsToNat rest with
    | some n => .num (-(n : Int))
    | none => .nan
  | _ =>
    match digitsToNat cs with
    | some n => .num n
    | none => .nan

/-- Indexing an array past its end yields `undefined`, which the numeric
comparisons treat as NaN. -/
def partAt (parts : List JSNum) (i : Nat) : JSNum :=
  parts.getD i .nan

/-- JavaScript `a > b`: false whenever either side is NaN. -/
def jsGt : JSNum → JSNum → Bool
  | .num a, .num b => a > b
  | _, _ => false

/-- JavaScript `a < b`: false whenever either side is NaN. -/
def jsLt : JSNum → JSNum → Bool
  | .num a, .num b => a < b
  | _, _ => false

/-! ## Version comparison and the two auto-update decision procedures -/

/-- The unrolled three-iteration `for` loop of `isNewerVersion`: at each index
`latest > current` returns true, `latest < current` returns false, otherwise
(equal or NaN on either side) the next index is examined; after index 2 the
result is false. -/
def versionLoop (currentParts latestParts : List JSNum) : Bool :=
  if jsGt (partAt latestParts 0) (partAt currentParts 0) then true
  else if jsLt (partAt latestParts 0) (partAt currentParts 0) then false
  else if jsGt (partAt latestParts 1) (partAt currentParts 1) then true
  else if jsLt (partAt latestParts 1) (partAt currentParts 1) then false
  else if jsGt (partAt latestParts 2) (partAt currentParts 2) then true
  else if jsLt (partAt latestParts 2) (partAt currentParts 2) then false
  else false

/-- The `isNewerVersion(current, latest)` helper of the launcher
(src/unnamed/part_001, lines 67-77): false when either argument is falsy,
otherwise both strings are split on `'.'`, each part coerced with `Number`,
and the first three parts compared in order. -/
def isNewerVersion (current latest : Option String) : Bool :=
  if jsFalsyStr current || jsFalsyStr latest then false
  else
    let currentParts := (splitDot (current.getD "").data).map jsToNumber
    let latestParts := (splitDot (latest.getD "").data).map jsToNumber
    versionLoop currentParts latestParts

/-- The update decision of `checkAndUpdate` (src/update-func.js, lines 2-53,
identical in src/unnamed/part_001 lines 80-140): true exactly when the run
reaches the branch that installs the new version.  `ciEnv` models the
truthiness of `process.env.CI || process.env.CEREBELLA_NO_UPDATE`;
`currentVersion` is `getCurrentVersion()`'s result (`none` when package.json
is unreadable) and `latestVersion` is `fetchLatestVersion()`'s result
(`none` on timeout, network error, or unparsable registry response). -/
def checkAndUpdate (ciEnv : Bool) (currentVersion latestVersion : Option String) : Bool :=
  if ciEnv then false
  else if jsFalsyStr currentVersion then false
  else if jsFalsyStr latestVersion then false
  else isNewerVersion currentVersion latestVersion

/-- The update decision of `checkForUpdates` (src/auto-update.js, lines
14-83): true exactly when the run reaches the branch that installs the new
version.  `currentVersion` is the version read from package.json (`none`
when unreadable, which returns early); `latestVersion` is the registry
response's `version` field (`none` when absent).  The code updates whenever
`latestVersion && latestVersion !== currentVersion`, i.e. whenever the
fetched version is truthy and merely differs from the current one. -/
def checkForUpdates (currentVersion latestVersion : Option String) : Bool :=
  match currentVersion with
  | none => false
  | some cur =>
    match latestVersion with
    | none => false
    | some latest => if latest == "" then false else latest != cur

/-! ## The dashboard front-end (src/dashboard/dashboard.js)

The dashboard script defines rendering helpers and network actions, then at
its top level schedules `setInterval(update, 1000)` and calls `update()`
once.  The HTTP traffic of each function and the top-level schedule are
embedded structurally; `formatDiff`/`escapeHtml` are embedded as the pure
string functions they are. -/

inductive HttpMethod where
  | GET
  | POST
deriving DecidableEq

structure Request where
  method : HttpMethod
  path : String
deriving DecidableEq

/-- A request mutates server state exactly when it is a POST (the server's
GET /state endpoint is the pure snapshot query). -/
def isMutating (r : Request) : Bool :=
  match r.method with
  | .POST => true
  | .GET => false

/-- The requests the dashboard's `update` function issues (dashboard.js,
lines 69-163): a single `fetch('/state')`; everything else in its body is
DOM rendering of the response. -/
def updateRequests : List Request := [{ method := .GET, path := "/state" }]

/-- The request of `toggleLock` (dashboard.js, lines 32-45). -/
def toggleLockRequests : List Request := [{ method := .POST, path := "/toggle-lock" }]

/-- The request of `lockAll` (dashboard.js, lines 47-56). -/
def lockAllRequests : List Request := [{ method := .POST, path := "/lock-all" }]

/-- The request of `unlockAll` (dashboard.js, lines 58-67). -/
def unlockAllRequests : List Request := [{ method := .POST, path := "/unlock-all" }]

/-- A top-level effect of the dashboard script: scheduling a function on a
fixed period, or invoking it immediately; each carries the requests the
scheduled function issues per invocation. -/
inductive DashboardAction where
  | schedule (periodMs : Nat) (requests : List Request)
  | callNow (requests : List Request)
deriving DecidableEq

/-- The top-level statements of dashboard.js (lines 165-166):
`setInterval(update, 1000); update();`. -/
def dashboardStartup : List DashboardAction :=
  [.schedule 1000 updateRequests, .callNow updateRequests]

/-- HTML-escaping of one character, as a text node's `innerHTML`
serialization performs it (dashboard.js `escapeHtml` routes the string
through `div.textContent`): the markup-significant characters become
entities, everything else is unchanged. -/
def escapeChar (c : Char) : List Char :=
  if c = '&' then "&amp;".data
  else if c = '<' then "&lt;".data
  else if c = '>' then "&gt;".data
  else [c]

def escapeList : List Char → List Char
  | [] => []
  | c :: cs => escapeChar c ++ escapeList cs

/-- The dashboard's `escapeHtml` (dashboard.js, lines 12-16). -/
def escapeHtml (s : String) : String :=
  String.mk (escapeList s.data)

/-- JavaScript `line.startsWith(c)` for a one-character argument. -/
def headIs (c : Char) (s : String) : Bool :=
  match s.data with
  | [] => false
  | d :: _ => d == c

/-- JavaScript `diff.split('\\n')`: splitting on the literal two-character
sequence backslash-n (the separator in the JS source is the escaped string
`'\\n'`, not a newline), left to right and non-overlapping. -/
def splitBackslashN : List Char → List (List Char)
  | [] => [[]]
  | [c] => [[c]]
  | c1 :: c2 :: rest =>
    if c1 = '\\' ∧ c2 = 'n' then
      [] :: splitBackslashN rest
    else
      match splitBackslashN (c2 :: rest) with
      | seg :: segs => (c1 :: seg) :: segs
      | [] => [[c1]]

/-- JavaScript `Array.prototype.join(sep)` at the character-list level. -/
def joinWith (sep : List Char) : List (List Char) → List Char
  | [] => []
  | [x] => x
  | x :: xs => x ++ sep ++ joinWith sep xs

/-- The add-styled segment the dashboard emits for a line starting with
`'+'`. -/
def spanAdd (line : String) : String :=
  String.mk ("<span class=\"diff-add\">".data ++ escapeList line.data ++ "</span>".data)

/-- The del-styled segment the dashboard emits for a line starting with
`'-'`. -/
def spanDel (line : String) : String :=
  String.mk ("<span class=\"diff-del\">".data ++ escapeList line.data ++ "</span>".data)

/-- The per-segment classification inside `formatDiff`'s `map` (dashboard.js,
lines 3-9): a segment starting with `'+'` is wrapped in a diff-add span, else
one starting with `'-'` in a diff-del span, else it is only HTML-escaped. -/
def formatLine (line : String) : String :=
  if headIs '+' line then spanAdd line
  else if headIs '-' line then spanDel line
  else escapeHtml line

/-- The dashboard's `formatDiff` (dashboard.js, lines 1-10; the same
function appears verbatim at the end of src/cli.js): a falsy diff yields
the empty string, otherwise the diff is split on the literal `'\\n'`
sequence, each segment classified, and the segments rejoined with the same
separator. -/
def formatDiff (diff : Option String) : String :=
  if jsFalsyStr diff then ""
  else
    String.mk (joinWith "\\n".data
      (((splitBackslashN (diff.getD "").data)).map (fun seg => (formatLine (String.mk seg)).data)))

/-! ## The watcher core, modelled from the specification

The watcher server the CLI spawns (its `main.py`) is not among the
repository's files; only the specification describes it.  Every definition
in this section is therefore modelled from the spec's words (sections 3-7)
and its doc comment says so. -/

/-- Modelled from the spec: file content is the full byte content read each
scan cycle (section 4.1); a byte sequence, here a list of byte values. -/
abbrev Content := List Nat

/-- Modelled from the spec: one line of decoded text, kept as its byte
sequence. -/
abbrev Line := List Nat

/-- Modelled from the spec: byte length of a content (section 4.2). -/
def byteLength (c : Content) : Nat := c.length

/-- Modelled from the spec: the binary-classification heuristic of section
4.2, "the presence of a NUL byte in the first N bytes", with N = 8000. -/
def isBinary (c : Content) : Bool :=
  (c.take 8000).contains 0

/-- Modelled from the spec: newline-delimited lines of a content (section
4.2); byte 10 is the newline delimiter. -/
def splitLines : Content → List Line
  | [] => [[]]
  | 10 :: rest => [] :: splitLines rest
  | b :: rest =>
    match splitLines rest with
    | seg :: segs => (b :: seg) :: segs
    | [] => [[b]]

/-- Modelled from the spec: the count of newline-delimited lines in a
content (section 4.2). -/
def lineCount (c : Content) : Nat :=
  (splitLines c).length

/-- Modelled from the spec: one line of the unified diff of section 4.2 -
an unchanged context line, an addition, or a deletion. -/
inductive DiffLine where
  | ctx (line : Line)
  | add (line : Line)
  | del (line : Line)
deriving DecidableEq

def DiffLine.isAdd : DiffLine → Bool
  | .add _ => true
  | _ => false

def DiffLine.isDel : DiffLine → Bool
  | .del _ => true
  | _ => false

/-- Length of a longest common subsequence of two line sequences. -/
def lcsLen : List Line → List Line → Nat
  | [], _ => 0
  | _ :: _, [] => 0
  | x :: xs, y :: ys =>
    if x = y then lcsLen xs ys + 1
    else max (lcsLen (x :: xs) ys) (lcsLen xs (y :: ys))
termination_by a b => a.length + b.length

/-- Modelled from the spec: the "standard longest-common-subsequence-based
line diff" of section 4.2 - lines present only in the old side are marked
deletions, lines present only in the new side additions, common lines pass
through as context, in order. -/
def lcsDiff : List Line → List Line → List DiffLine
  | [], ys => ys.map DiffLine.add
  | x :: xs, [] => DiffLine.del x :: lcsDiff xs []
  | x :: xs, y :: ys =>
    if x = y then DiffLine.ctx x :: lcsDiff xs ys
    else if lcsLen xs (y :: ys) ≥ lcsLen (x :: xs) ys then DiffLine.del x :: lcsDiff xs (y :: ys)
    else DiffLine.add y :: lcsDiff (x :: xs) ys
termination_by a b => a.length + b.length

/-- Modelled from the spec: the Diff Engine's result (section 4.2):
`diffText` as its marked-line sequence, the signed byte-size delta, and the
line delta with `none` as the "unavailable" sentinel. -/
structure DiffResult where
  diffLines : List DiffLine
  sizeDelta : Int
  linesDelta : Option Int
deriving DecidableEq

/-- Modelled from the spec: the Diff Engine's `compute(oldContent,
newContent)` (section 4.2).  `sizeDelta` is the byte length of the new
content minus that of the old, well-defined always; when either content is
classified binary the line delta is the unavailable sentinel and the diff
text is empty, otherwise both come from the newline-split line sequences. -/
def compute (oldContent newContent : Content) : DiffResult :=
  let binary := isBinary oldContent || isBinary newContent
  { diffLines := if binary then [] else lcsDiff (splitLines oldContent) (splitLines newContent)
    sizeDelta := (byteLength newContent : Int) - (byteLength oldContent : Int)
    linesDelta :=
      if binary then none else some ((lineCount newContent : Int) - (lineCount oldContent : Int)) }

/-- Modelled from the spec: a ChangeEvent (section 3), one immutable record
per detected creation, modification or deletion. -/
structure ChangeEvent where
  file : String
  time : Nat
  size_change : Int
  lines_change : Option Int
  diff : List DiffLine
deriving DecidableEq

/-- Modelled from the spec: the Change Log (section 4.4), an append-only
ordered sequence of ChangeEvents. -/
structure ChangeLog where
  entries : List ChangeEvent
deriving DecidableEq

def ChangeLog.empty : ChangeLog := ⟨[]⟩

/-- Modelled from the spec: the log contract's `append(event)`. -/
def ChangeLog.append (log : ChangeLog) (e : ChangeEvent) : ChangeLog :=
  ⟨log.entries ++ [e]⟩

/-- Modelled from the spec: the log contract's `all()`, the events in
insertion order. -/
def ChangeLog.all (log : ChangeLog) : List ChangeEvent :=
  log.entries

/-- Modelled from the spec: the log contract's `clear()`, only invoked on
session reset. -/
def ChangeLog.clear (_ : ChangeLog) : ChangeLog := ⟨[]⟩

/-- Insert or overwrite the entry of one key in an association list keyed by
path. -/
def assocSet {α : Type} : List (String × α) → String → α → List (String × α)
  | [], p, v => [(p, v)]
  | (q, w) :: rest, p, v =>
    if q = p then (p, v) :: rest else (q, w) :: assocSet rest p v

/-- Look one key up in an association list keyed by path. -/
def assocGet {α : Type} : List (String × α) → String → Option α
  | [], _ => none
  | (q, w) :: rest, p => if q = p then some w else assocGet rest p

/-- Modelled from the spec: the Lock Registry's `get(path)` (section 4.5),
defaulting to false for unknown paths. -/
def lockGet (locks : List (String × Bool)) (p : String) : Bool :=
  (assocGet locks p).getD false

/-- Modelled from the spec: the Lock Registry's `toggle(path)` (section
4.5): the path's flag becomes the negation of its current value. -/
def toggle (locks : List (String × Bool)) (p : String) : List (String × Bool) :=
  assocSet locks p (!lockGet locks p)

/-- Modelled from the spec: the Lock Registry's `setAll(locked)` (section
4.5), absolute over the given tracked key set. -/
def setAll (tracked : List String) (locks : List (String × Bool)) (b : Bool) :
    List (String × Bool) :=
  tracked.foldl (fun acc q => assocSet acc q b) locks

/-- Modelled from the spec: the WatchSession (section 3): the watched root
(or none), the TrackedFile mapping from absolute path to last-known
content, the ChangeEvent log, and the LockEntry mapping. -/
structure Session where
  watching : Option String
  files : List (String × Content)
  changes : ChangeLog
  locks : List (String × Bool)
deriving DecidableEq

/-- Modelled from the spec: the `idle/watching -> watching(root)` transition
(sections 3 and 4.3): the Snapshot Store and Change Log are cleared, the new
root recorded, and the Lock Registry - path-scoped, not session-scoped - is
preserved unchanged. -/
def startWatch (s : Session) (root : String) : Session :=
  { watching := some root
    files := []
    changes := s.changes.clear
    locks := s.locks }

/-- Modelled from the spec: the ChangeEvent appended for one detected
transition, carrying the DiffResult's fields and the cycle timestamp
(section 4.3). -/
def mkEvent (t : Nat) (p : String) (r : DiffResult) : ChangeEvent :=
  { file := p
    time := t
    size_change := r.sizeDelta
    lines_change := r.linesDelta
    diff := r.diffLines }

/-- Modelled from the spec: the Snapshot Store's `observe` driving one file
of a scan cycle (sections 4.1 and 4.3): `created` when no entry exists
(diffed against empty content), `modified` when the stored content differs
(diffed against it), `unchanged` otherwise with no side effect; on
created/modified the entry is overwritten and one ChangeEvent appended. -/
def observeStep (t : Nat) (st : Session) (pc : String × Content) : Session :=
  match assocGet st.files pc.1 with
  | none =>
    { st with
      files := assocSet st.files pc.1 pc.2
      changes := st.changes.append (mkEvent t pc.1 (compute [] pc.2)) }
  | some old =>
    if old = pc.2 then st
    else
      { st with
        files := assocSet st.files pc.1 pc.2
        changes := st.changes.append (mkEvent t pc.1 (compute old pc.2)) }

/-- Modelled from the spec: one Watch Loop scan cycle (section 4.3) over the
current recursive listing, given in the cycle's deterministic order: every
listed file is observed in order, then every tracked path absent from the
listing is forgotten with a ChangeEvent marking its whole prior content
deleted (its diff against empty content, so the size delta is the negated
prior size). -/
def scanCycle (t : Nat) (listing : List (String × Content)) (s : Session) : Session :=
  let s1 := listing.foldl (observeStep t) s
  let gone := s1.files.filter (fun pc => (assocGet listing pc.1).isNone)
  let kept := s1.files.filter (fun pc => (assocGet listing pc.1).isSome)
  { s1 with
    files := kept
    changes := gone.foldl (fun log pc => log.append (mkEvent t pc.1 (compute pc.2 []))) s1.changes }

/-- The events one scan cycle appended: the log's suffix past the previous
length. -/
def scanNewEvents (t : Nat) (listing : List (String × Content)) (s : Session) :
    List ChangeEvent :=
  ((scanCycle t listing s).changes.all).drop s.changes.all.length

/-- Modelled from the spec: the server's response to one request, as far as
the dashboard contract observes it (section 6). -/
structure HttpResponse where
  status : Nat
  success : Bool
deriving DecidableEq

def isClientError (r : HttpResponse) : Bool :=
  400 ≤ r.status && r.status < 500

/-- Modelled from the spec: the `POST /toggle-lock` handler (sections 6 and
7): a malformed body - the `filepath` field missing, here `none` - is
rejected with a client-error response and no state mutation; a well-formed
body toggles that path's lock. -/
def handleToggleLock (filepath : Option String) (s : Session) : HttpResponse × Session :=
  match filepath with
  | none => ({ status := 400, success := false }, s)
  | some p => ({ status := 200, success := true }, { s with locks := toggle s.locks p })

/-! ## Association-list lemmas -/

theorem assocGet_assocSet {α : Type} (l : List (String × α)) (p q : String) (v : α) :
    assocGet (assocSet l p v) q = if q = p then some v else assocGet l q := by
  induction l with
  | nil =>
    by_cases h : q = p
    · subst h; simp [assocSet, assocGet]
    · simp [assocSet, assocGet, h, Ne.symm h]
  | cons hd tl ih =>
    obtain ⟨r, w⟩ := hd
    by_cases hr : r = p
    · subst hr
      by_cases h : q = r
      · subst h; simp [assocSet, assocGet]
      · simp [assocSet, assocGet, h, Ne.symm h]
    · by_cases h : r = q
      · subst h
        have : ¬(r = p) := hr
        simp [assocSet, assocGet, hr, Ne.symm hr]
      · simp [assocSet, assocGet, hr, h, ih]

theorem lockGet_toggle (locks : List (String × Bool)) (p q : String) :
    lockGet (toggle locks p) q = if q = p then !lockGet locks p else lockGet locks q := by
  by_cases h : q = p
  · simp [lockGet, toggle, assocGet_assocSet, h]
  · simp [lockGet, toggle, assocGet_assocSet, h]

/-! ## Claim theorems for the spec-modelled core -/

/-- C2: for all content pairs (A, B), the Diff Engine's compute(A, B)
returns a sizeDelta equal to the byte length of B minus the byte length of
A, for every input including binary content. -/
theorem compute_sizeDelta (A B : Content) :
    (compute A B).sizeDelta = (byteLength B : Int) - (byteLength A : Int) := rfl

/-- C3: starting a new watch resets the TrackedFile mapping and the Change
Log to empty while leaving every Lock Registry entry (and every path's lock
flag) unchanged, and records the new root. -/
theorem startWatch_resets_files_changes_keeps_locks (s : Session) (root : String) :
    (startWatch s root).files = [] ∧
    ((startWatch s root).changes).all = [] ∧
    (startWatch s root).watching = some root ∧
    (startWatch s root).locks = s.locks ∧
    (∀ p, lockGet (startWatch s root).locks p = lockGet s.locks p) :=
  ⟨rfl, rfl, rfl, rfl, fun _ => rfl⟩

/-- C5: toggling the same path twice returns the Lock Registry to its
original observable state: afterward every path (the toggled one and every
other) reports the same lock flag as before. -/
theorem toggle_toggle_id (locks : List (String × Bool)) (p q : String) :
    lockGet (toggle (toggle locks p) p) q = lockGet locks q := by
  by_cases h : q = p
  · subst h
    rw [lockGet_toggle, if_pos rfl, lockGet_toggle, if_pos rfl, Bool.not_not]
  · rw [lockGet_toggle, if_neg h, lockGet_toggle, if_neg h]

/-- C6: a POST /toggle-lock request whose body is missing the filepath field
gets a client-error response with success = false and leaves the whole
WatchSession (TrackedFile mapping, Change Log, Lock Registry, watched root)
unchanged. -/
theorem toggleLock_malformed_no_mutation (s : Session) :
    (handleToggleLock none s).2 = s ∧
    isClientError (handleToggleLock none s).1 = true ∧
    (handleToggleLock none s).1.success = false ∧
    (handleToggleLock none s).2.files = s.files ∧
    ((handleToggleLock none s).2.changes).all = s.changes.all ∧
    (handleToggleLock none s).2.locks = s.locks ∧
    (handleToggleLock none s).2.watching = s.watching :=
  ⟨rfl, rfl, rfl, rfl, rfl, rfl, rfl⟩

/-! ## Change Log lemmas and claim C1 -/

theorem foldl_append_all (events : List ChangeEvent) :
    ∀ log : ChangeLog, (events.foldl ChangeLog.append log).all = log.all ++ events := by
  induction events with
  | nil => intro log; simp
  | cons e es ih =>
    intro log
    rw [List.foldl_cons, ih]
    simp [ChangeLog.append, ChangeLog.all]

/-- Folding any step that only ever appends to the projected event list
itself only appends to it. -/
theorem foldl_chain {α β : Type} (proj : β → List ChangeEvent) (f : β → α → β)
    (hf : ∀ b a, ∃ d, proj (f b a) = proj b ++ d) :
    ∀ (l : List α) (b : β), ∃ new, proj (l.foldl f b) = proj b ++ new := by
  intro l
  induction l with
  | nil => intro b; exact ⟨[], by simp⟩
  | cons x xs ih =>
    intro b
    obtain ⟨d, hd⟩ := hf b x
    obtain ⟨new, hnew⟩ := ih (f b x)
    exact ⟨d ++ new, by rw [List.foldl_cons, hnew, hd, List.append_assoc]⟩

theorem observeStep_appends (t : Nat) (s : Session) (pc : String × Content) :
    ∃ d, ((observeStep t s pc).changes).all = s.changes.all ++ d := by
  unfold observeStep
  cases assocGet s.files pc.1 with
  | none => exact ⟨_, rfl⟩
  | some old =>
    dsimp only
    by_cases h : old = pc.2
    · rw [if_pos h]
      exact ⟨[], by simp⟩
    · rw [if_neg h]
      exact ⟨_, rfl⟩

theorem scanCycle_appends (t : Nat) (listing : List (String × Content)) (s : Session) :
    ∃ new, ((scanCycle t listing s).changes).all = s.changes.all ++ new := by
  obtain ⟨n1, h1⟩ :=
    foldl_chain (fun st : Session => st.changes.all) (observeStep t)
      (fun b a => observeStep_appends t b a) listing s
  obtain ⟨n2, h2⟩ :=
    foldl_chain ChangeLog.all
      (fun log pc => log.append (mkEvent t pc.1 (compute pc.2 [])))
      (fun b a => ⟨_, rfl⟩)
      ((listing.foldl (observeStep t) s).files.filter
        (fun pc => (assocGet listing pc.1).isNone))
      (listing.foldl (observeStep t) s).changes
  refine ⟨n1 ++ n2, ?_⟩
  simp only [scanCycle]
  rw [h2, h1, List.append_assoc]

/-- C1: the Change Log is append-only in insertion order.  N sequential
appends (one per detected modification) starting from the empty log yield a
log whose all() sequence is exactly those N events in detection order;
append never mutates an existing entry (the previous sequence is preserved
as a prefix with the new event after it); and a whole scan cycle only
appends, so every event of a later cycle follows every event of an earlier
one. -/
theorem changeLog_append_only :
    (∀ events : List ChangeEvent,
      (events.foldl ChangeLog.append ChangeLog.empty).all = events ∧
      (events.foldl ChangeLog.append ChangeLog.empty).all.length = events.length) ∧
    (∀ (log : ChangeLog) (e : ChangeEvent), (log.append e).all = log.all ++ [e]) ∧
    (∀ (t : Nat) (listing : List (String × Content)) (s : Session),
      ((scanCycle t listing s).changes).all = s.changes.all ++ scanNewEvents t listing s) := by
  refine ⟨?_, fun log e => rfl, ?_⟩
  · intro events
    have h := foldl_append_all events ChangeLog.empty
    rw [show ChangeLog.all ChangeLog.empty = [] from rfl, List.nil_append] at h
    exact ⟨h, by rw [h]⟩
  · intro t listing s
    obtain ⟨new, h⟩ := scanCycle_appends t listing s
    have : scanNewEvents t listing s = new := by
      rw [scanNewEvents, h, List.drop_left]
    rw [h, this]

/-! ## Diff Engine diagonal behavior (claim C4) -/

theorem lcsDiff_self (l : List Line) : lcsDiff l l = l.map DiffLine.ctx := by
  induction l with
  | nil => simp [lcsDiff]
  | cons x xs ih => simp [lcsDiff, ih]

/-- C4 counterexample: for binary content (a NUL byte), compute(A, A)
returns the unavailable sentinel for linesDelta, not 0, although sizeDelta
is 0 and the diff text is empty. -/
theorem compute_binary_diag_cex :
    isBinary [0] = true ∧
    (compute [0] [0]).sizeDelta = 0 ∧
    (compute [0] [0]).diffLines = [] ∧
    (compute [0] [0]).linesDelta = none ∧
    ¬((compute [0] [0]).linesDelta = some 0) := by
  refine ⟨by decide, by decide, by decide, by decide, by decide⟩

/-- C4 (amended): for every content A not classified as binary, compute(A,
A) returns sizeDelta = 0, linesDelta = 0, and a diff text containing no
addition lines and no deletion lines (for binary A the diff text is empty
and sizeDelta is 0, but linesDelta is the unavailable sentinel). -/
theorem compute_diag (A : Content) (h : isBinary A = false) :
    (compute A A).sizeDelta = 0 ∧
    (compute A A).linesDelta = some 0 ∧
    ((compute A A).diffLines).all (fun d => !d.isAdd && !d.isDel) = true := by
  have hb : (isBinary A || isBinary A) = false := by rw [h]; rfl
  refine ⟨?_, ?_, ?_⟩
  · simp [compute]
  · simp [compute, hb, h]
  · have hd : (compute A A).diffLines = (splitLines A).map DiffLine.ctx := by
      simp [compute, hb, h, lcsDiff_self]
    rw [hd]
    simp [List.all_eq_true, DiffLine.isAdd, DiffLine.isDel]

/-- Witness for the amended C4 at the concrete text content "h\n". -/
theorem compute_diag_witness :
    isBinary [104, 10] = false ∧
    ((compute [104, 10] [104, 10]).sizeDelta = 0 ∧
      (compute [104, 10] [104, 10]).linesDelta = some 0 ∧
      ((compute [104, 10] [104, 10]).diffLines).all (fun d => !d.isAdd && !d.isDel) = true) :=
  ⟨by decide, compute_diag [104, 10] (by decide)⟩

/-! ## Dashboard polling (claim C7) -/

/-- C7: the dashboard's top-level startup schedules the update function on a
fixed 1000 ms period and additionally invokes it once immediately; every
top-level action runs that same update function; and every request the
update function issues is the GET /state snapshot query - never a
state-mutating request. -/
theorem dashboard_polls_state_only :
    DashboardAction.schedule 1000 updateRequests ∈ dashboardStartup ∧
    DashboardAction.callNow updateRequests ∈ dashboardStartup ∧
    (∀ a ∈ dashboardStartup,
      a = DashboardAction.schedule 1000 updateRequests ∨
      a = DashboardAction.callNow updateRequests) ∧
    (∀ r ∈ updateRequests,
      r.method = HttpMethod.GET ∧ r.path = "/state" ∧ isMutating r = false) := by
  decide

/-! ## Version comparison lemmas and claims C8, C9 -/

theorem jsGt_self (a : JSNum) : jsGt a a = false := by
  cases a with
  | nan => rfl
  | num v => simp [jsGt]

theorem jsLt_self (a : JSNum) : jsLt a a = false := by
  cases a with
  | nan => rfl
  | num v => simp [jsLt]

theorem versionLoop_self (parts : List JSNum) : versionLoop parts parts = false := by
  simp [versionLoop, jsGt_self, jsLt_self]

/-- C8: the two auto-update implementations are not equivalent.  With
current version "2.0.0" and fetched latest version "1.0.0" (a downgrade),
checkForUpdates (auto-update.js) initiates an update because the versions
merely differ, while checkAndUpdate (update-func.js) does not because
isNewerVersion reports the latest not strictly newer: exactly one of the
two triggers. -/
theorem updaters_not_equivalent :
    checkForUpdates (some "2.0.0") (some "1.0.0") = true ∧
    checkAndUpdate false (some "2.0.0") (some "1.0.0") = false ∧
    isNewerVersion (some "2.0.0") (some "1.0.0") = false ∧
    checkForUpdates (some "2.0.0") (some "1.0.0") ≠
      checkAndUpdate false (some "2.0.0") (some "1.0.0") := by
  decide

/-- C9: isNewerVersion is irreflexive and false on falsy arguments: for
every version string v, isNewerVersion v v is false, and it is false
whenever either argument is null or empty; hence checkAndUpdate never
triggers an update when the installed version equals the latest published
one or when either version is unknown. -/
theorem isNewerVersion_irrefl_falsy :
    (∀ v : Option String, isNewerVersion v v = false) ∧
    (∀ l : Option String, isNewerVersion none l = false) ∧
    (∀ c : Option String, isNewerVersion c none = false) ∧
    (∀ l : Option String, isNewerVersion (some "") l = false) ∧
    (∀ c : Option String, isNewerVersion c (some "") = false) ∧
    (∀ (ci : Bool) (v : String), checkAndUpdate ci (some v) (some v) = false) ∧
    (∀ (ci : Bool) (l : Option String), checkAndUpdate ci none l = false) ∧
    (∀ (ci : Bool) (c : Option String), checkAndUpdate ci c none = false) := by
  have hrefl : ∀ v : Option String, isNewerVersion v v = false := by
    intro v
    cases v with
    | none => rfl
    | some s =>
      by_cases h : s == ""
      · simp [isNewerVersion, jsFalsyStr, h]
      · simp [isNewerVersion, jsFalsyStr, h, versionLoop_self]
  have hnone2 : ∀ c : Option String, isNewerVersion c none = false := by
    intro c
    cases c <;> simp [isNewerVersion, jsFalsyStr]
  have hemp2 : ∀ c : Option String, isNewerVersion c (some "") = false := by
    intro c
    cases c <;> simp [isNewerVersion, jsFalsyStr]
  refine ⟨hrefl, fun l => rfl, hnone2, ?_, hemp2, ?_, ?_, ?_⟩
  · intro l
    simp [isNewerVersion, jsFalsyStr]
  · intro ci v
    cases ci with
    | true => rfl
    | false =>
      by_cases h : v == ""
      · simp [checkAndUpdate, jsFalsyStr, h]
      · simp [checkAndUpdate, jsFalsyStr, h, hrefl (some v)]
  · intro ci l
    cases ci <;> rfl
  · intro ci c
    cases ci with
    | true => rfl
    | false =>
      cases c with
      | none => rfl
      | some s =>
        by_cases h : s == ""
        · simp [checkAndUpdate, jsFalsyStr, h]
        · simp [checkAndUpdate, jsFalsyStr, h, hnone2 (some s)]

/-! ## Dashboard formatDiff lemmas and claim C10 -/

theorem splitBackslashN_ne_nil (l : List Char) : splitBackslashN l ≠ [] := by
  match l with
  | [] => simp [splitBackslashN]
  | [c] => simp [splitBackslashN]
  | c1 :: c2 :: rest =>
    rw [splitBackslashN]
    split_ifs with h
    · simp
    · rcases hs : splitBackslashN (c2 :: rest) with _ | ⟨seg, segs⟩ <;> simp

/-- Joining the split segments with the same separator restores the
original character list: splitBackslashN splits exactly at the occurrences
of the two-character backslash-n sequence. -/
theorem joinWith_splitBackslashN (l : List Char) :
    joinWith ['\\', 'n'] (splitBackslashN l) = l := by
  have key : ∀ (n : Nat) (l : List Char), l.length ≤ n →
      joinWith ['\\', 'n'] (splitBackslashN l) = l := by
    intro n
    induction n with
    | zero =>
      intro l hl
      have : l = [] := List.eq_nil_of_length_eq_zero (Nat.le_zero.mp hl)
      subst this
      rfl
    | succ n ih =>
      intro l hl
      rcases l with _ | ⟨c1, _ | ⟨c2, rest⟩⟩
      · rfl
      · rfl
      · rw [splitBackslashN]
        split_ifs with h
        · obtain ⟨h1, h2⟩ := h
          subst h1
          subst h2
          have hr : joinWith ['\\', 'n'] (splitBackslashN rest) = rest := by
            apply ih
            simp at hl
            omega
          rcases hs : splitBackslashN rest with _ | ⟨seg, segs⟩
          · exact absurd hs (splitBackslashN_ne_nil rest)
          · rw [hs] at hr
            simp [joinWith, hr]
        · have hr : joinWith ['\\', 'n'] (splitBackslashN (c2 :: rest)) = c2 :: rest := by
            apply ih
            simp at hl ⊢
            omega
          rcases hs : splitBackslashN (c2 :: rest) with _ | ⟨seg, segs⟩
          · exact absurd hs (splitBackslashN_ne_nil _)
          · rw [hs] at hr
            rcases segs with _ | ⟨s2, srest⟩
            · simp [joinWith] at hr ⊢
              simp [hr]
            · simp [joinWith] at hr ⊢
              simp [hr]
  exact key l.length l (le_refl _)

theorem escapeChar_cons (c : Char) : ∃ h t, escapeChar c = h :: t ∧ h ≠ '<' := by
  unfold escapeChar
  split_ifs with h1 h2 h3
  · exact ⟨'&', "amp;".data, by decide, by decide⟩
  · exact ⟨'&', "lt;".data, by decide, by decide⟩
  · exact ⟨'&', "gt;".data, by decide, by decide⟩
  · exact ⟨c, [], rfl, h2⟩

theorem headIs_lt_escapeHtml (s : String) : headIs '<' (escapeHtml s) = false := by
  cases s with
  | mk data =>
    cases data with
    | nil => rfl
    | cons c cs =>
      obtain ⟨h, t, he, hne⟩ := escapeChar_cons c
      simp [escapeHtml, escapeList, he, headIs, hne]

theorem spanAdd_data (s : String) :
    (spanAdd s).data =
      "<span class=\"diff-add\">".data ++ (escapeList s.data ++ "</span>".data) := by
  simp [spanAdd]

theorem spanDel_data (s : String) :
    (spanDel s).data =
      "<span class=\"diff-del\">".data ++ (escapeList s.data ++ "</span>".data) := by
  simp [spanDel]

theorem spanAdd_getD (s : String) : ((spanAdd s).data).getD 18 ' ' = 'a' := by
  rw [spanAdd_data, List.getD_append]
  · decide
  · decide

theorem spanDel_getD (s : String) : ((spanDel s).data).getD 18 ' ' = 'd' := by
  rw [spanDel_data, List.getD_append]
  · decide
  · decide

theorem spanAdd_ne_spanDel (s t : String) : spanAdd s ≠ spanDel t := by
  intro h
  have h2 : ((spanAdd s).data).getD 18 ' ' = ((spanDel t).data).getD 18 ' ' := by rw [h]
  rw [spanAdd_getD, spanDel_getD] at h2
  exact absurd h2 (by decide)

theorem headIs_lt_spanAdd (s : String) : headIs '<' (spanAdd s) = true := by
  have h : (spanAdd s).data = '<' :: ("span class=\"diff-add\">".data ++
      (escapeList s.data ++ "</span>".data)) := by
    rw [spanAdd_data]
    rw [show "<span class=\"diff-add\">".data = '<' :: "span class=\"diff-add\">".data from
      by decide]
    simp
  unfold headIs
  rw [h]
  rfl

theorem headIs_lt_spanDel (s : String) : headIs '<' (spanDel s) = true := by
  have h : (spanDel s).data = '<' :: ("span class=\"diff-del\">".data ++
      (escapeList s.data ++ "</span>".data)) := by
    rw [spanDel_data]
    rw [show "<span class=\"diff-del\">".data = '<' :: "span class=\"diff-del\">".data from
      by decide]
    simp
  unfold headIs
  rw [h]
  rfl

theorem spanAdd_ne_escapeHtml (s t : String) : spanAdd s ≠ escapeHtml t := by
  intro h
  have h1 := headIs_lt_spanAdd s
  rw [h, headIs_lt_escapeHtml t] at h1
  exact absurd h1 (by decide)

theorem spanDel_ne_escapeHtml (s t : String) : spanDel s ≠ escapeHtml t := by
  intro h
  have h1 := headIs_lt_spanDel s
  rw [h, headIs_lt_escapeHtml t] at h1
  exact absurd h1 (by decide)

theorem headIs_plus_of_minus (line : String) (h : headIs '-' line = true) :
    headIs '+' line = false := by
  cases line with
  | mk data =>
    cases data with
    | nil => rfl
    | cons d rest =>
      simp [headIs] at h ⊢
      rw [h]
      decide

theorem formatLine_add_iff (line : String) :
    (∃ s, formatLine line = spanAdd s) ↔ headIs '+' line = true := by
  constructor
  · rintro ⟨s, hs⟩
    by_contra hplus
    rw [Bool.not_eq_true] at hplus
    rw [formatLine] at hs
    rw [hplus] at hs
    simp only [Bool.false_eq_true, if_false] at hs
    by_cases hminus : headIs '-' line = true
    · rw [if_pos hminus] at hs
      exact spanAdd_ne_spanDel s line hs.symm
    · rw [if_neg hminus] at hs
      exact spanAdd_ne_escapeHtml s line hs.symm
  · intro h
    exact ⟨line, by rw [formatLine, if_pos h]⟩

theorem formatLine_del_iff (line : String) :
    (∃ s, formatLine line = spanDel s) ↔ headIs '-' line = true := by
  constructor
  · rintro ⟨s, hs⟩
    by_contra hminus
    rw [Bool.not_eq_true] at hminus
    rw [formatLine] at hs
    by_cases hplus : headIs '+' line = true
    · rw [if_pos hplus] at hs
      exact spanAdd_ne_spanDel line s hs
    · rw [if_neg hplus, hminus] at hs
      simp only [Bool.false_eq_true, if_false] at hs
      exact spanDel_ne_escapeHtml s line hs.symm
  · intro h
    have hp : headIs '+' line = false := headIs_plus_of_minus line h
    refine ⟨line, ?_⟩
    rw [formatLine, hp]
    simp only [Bool.false_eq_true, if_false]
    rw [if_pos h]

/-- C10: formatDiff splits its argument on the literal two-character
backslash-n sequence, not on actual newline characters (the separator is
backslash followed by n, distinct from the newline string, the split/join
round-trips, and a diff containing a real newline stays one segment); it
wraps a segment in a diff-add span iff the segment begins with '+', in a
diff-del span iff it begins with '-' (so a '+'-segment is never classified
as a deletion), and leaves every other segment unstyled (only
HTML-escaped); and formatDiff of a falsy (null or empty) diff is the empty
string. -/
theorem formatDiff_spec :
    (formatDiff none = "" ∧ formatDiff (some "") = "") ∧
    ("\\n".data = ['\\', 'n'] ∧ ("\\n" : String) ≠ "\n") ∧
    (∀ l : List Char, joinWith "\\n".data (splitBackslashN l) = l) ∧
    (∀ line : String, (∃ s, formatLine line = spanAdd s) ↔ headIs '+' line = true) ∧
    (∀ line : String, (∃ s, formatLine line = spanDel s) ↔ headIs '-' line = true) ∧
    (∀ line : String,
      formatLine line =
        if headIs '+' line then spanAdd line
        else if headIs '-' line then spanDel line
        else escapeHtml line) ∧
    (formatDiff (some "+x\ny") = "<span class=\"diff-add\">+x\ny</span>") ∧
    (formatDiff (some "+a\\n-b\\nc") =
      "<span class=\"diff-add\">+a</span>\\n<span class=\"diff-del\">-b</span>\\nc") := by
  refine ⟨⟨by decide, by decide⟩, ⟨by decide, by decide⟩, ?_, formatLine_add_iff,
    formatLine_del_iff, fun line => rfl, by decide, by decide⟩
  intro l
  rw [show ("\\n" : String).data = ['\\', 'n'] from by decide]
  exact joinWith_splitBackslashN l

end Cerebella
